import Mathlib

/-!
# Attorney pattern helpers (`Public/Helpers.h`)

`Helpers.h` is a set of six preprocessor definitions.  Each of them is embedded as a Lean
function from its arguments to the declarations it expands to, and the two static member
functions the expansions contain (the getter of `EXPOSE_CLIENT_FIELD`, the forwarder of
`EXPOSE_CLIENT_METHOD`) are embedded as Lean functions on an explicit program state.

The host language is modelled as far as the expansions use it:

* class-member access (`class` key, access specifiers, `friend class`),
* the type operators written in the expansions (`TDecay<...>::Type`, `*`, `const`, `&`,
  `decltype`, `Args&&`, `Forward<Args>`),
* calls through a pointer, `noexcept`, and `if constexpr (std::is_void_v<...>)`,
* the checks the compiler makes on the generated functions: name lookup and the uses that do
  not depend on a template parameter where a function is defined, the call that passes on
  the parameter pack where the function template is called.

Classes live in one scope (no namespaces, no inheritance, no nested classes, no overloading).
Data members hold values of one type `V`; a member of reference type stands for the object it
refers to.
-/

namespace AttorneyPattern

/-- An identifier as the preprocessor sees it. -/
abbrev Ident := String

/-! ## Types -/

/-- Top-level `const` / `volatile` qualification of a type. -/
structure CVQual where
  isConst : Bool
  isVolatile : Bool
  deriving DecidableEq

/-- No qualifier. -/
def CVQual.unqualified : CVQual := ⟨false, false⟩

/-- The non-reference types a client class can be named with: the class itself or a pointer,
each with its own top-level qualification. -/
inductive ObjectType
  | named (name : Ident) (cv : CVQual)
  | pointer (pointee : ObjectType) (cv : CVQual)
  deriving DecidableEq

/-- Reference part of a type: none, `&` or `&&`. -/
inductive RefKind
  | none
  | lvalue
  | rvalue
  deriving DecidableEq

/-- A type: an object type, possibly behind a reference. -/
structure CType where
  object : ObjectType
  ref : RefKind
  deriving DecidableEq

/-- Top-level qualification of an object type. -/
def ObjectType.cv : ObjectType → CVQual
  | .named _ cv => cv
  | .pointer _ cv => cv

/-- The same object type with its top-level qualification replaced. -/
def ObjectType.withCV : ObjectType → CVQual → ObjectType
  | .named n _, cv => .named n cv
  | .pointer p _, cv => .pointer p cv

/-- The plain (unqualified, non-reference) class type `T`. -/
def CType.ofClass (T : Ident) : CType := ⟨.named T CVQual.unqualified, .none⟩

/-- An object type taken as a type (no reference). -/
def CType.ofObject (t : ObjectType) : CType := ⟨t, .none⟩

/-- The type written `const T`, where `T` is given by a name, an alias or `decltype`:
a qualifier applied to a reference type is ignored. -/
def CType.addConst (t : CType) : CType :=
  match t.ref with
  | .none => ⟨t.object.withCV ⟨true, t.object.cv.isVolatile⟩, .none⟩
  | _ => t

/-- The type written `T&`: an lvalue reference; a reference to a reference collapses. -/
def CType.addLValueRef (t : CType) : CType := ⟨t.object, .lvalue⟩

/-- The type written `T&&`: `&` wins when references collapse. -/
def CType.addRValueRef (t : CType) : CType :=
  match t.ref with
  | .lvalue => ⟨t.object, .lvalue⟩
  | _ => ⟨t.object, .rvalue⟩

/-- Whether writing through an expression of this type is refused: the object type it
designates is `const`. -/
def CType.isReadOnly (t : CType) : Bool := t.object.cv.isConst

/-- Modelled from the spec: `TDecay<T>::Type` is a template of the host engine and is not
defined in this repository.  On the types a client class can be named with it removes the
reference and the top-level `const` / `volatile` qualifiers. -/
def TDecay (T : CType) : ObjectType := T.object.withCV CVQual.unqualified

/-! ## Declarations -/

/-- Member access levels. -/
inductive Access
  | priv
  | prot
  | pub
  deriving DecidableEq

/-- The class key decides the access of members declared before any access specifier. -/
inductive ClassKey
  | classKey
  | structKey
  deriving DecidableEq

/-- A non-static data member `type name;` or, with a width, the bit-field `type name : w;`. -/
structure FieldDecl where
  name : Ident
  type : CType
  bitWidth : Option Nat
  deriving DecidableEq

/-- A non-static member function of a client class. -/
structure MethodDecl where
  name : Ident
  isConst : Bool
  returnsVoid : Bool
  deriving DecidableEq

/-- How the code of a generated function names a member of the client. -/
inductive MemberUse
  /-- In the declaration, as `decltype(FDecayedClientType::member)`. -/
  | typeOf (member : Ident)
  /-- As the member access `Client->member`. -/
  | access (member : Ident)
  /-- As the call `Client->member(Forward<Args>(Parameters)...)`, whose arguments depend on
  the template parameter pack. -/
  | call (member : Ident)
  deriving DecidableEq

/-- The member a use names. -/
def MemberUse.member : MemberUse → Ident
  | .typeOf m => m
  | .access m => m
  | .call m => m

/-- A static member function as the exposure definitions declare it. -/
structure StaticFunctionDecl where
  name : Ident
  /-- Declared under `template<typename... Args>`. -/
  isTemplate : Bool
  isNoexcept : Bool
  /-- Type of the first parameter, `const FClientType Client`. -/
  clientParam : CType
  /-- The places where the declaration and the body name a member of the client, through
  `FDecayedClientType::` or `Client->`, in order of appearance. -/
  uses : List MemberUse
  deriving DecidableEq

/-- Members of the client named in the declaration and the body of a generated function, in
order of appearance. -/
def StaticFunctionDecl.clientMembers (g : StaticFunctionDecl) : List Ident :=
  g.uses.map MemberUse.member

/-- One declaration in a class body. -/
inductive MemberDecl
  | accessSpecifier (a : Access)
  | friendClass (name : Ident)
  | typeAlias (name : Ident) (type : CType)
  | dataMember (f : FieldDecl)
  | memberFunction (m : MethodDecl)
  | staticFunction (f : StaticFunctionDecl)
  deriving DecidableEq

/-- A class definition: key, name and body. -/
structure ClassDef where
  key : ClassKey
  name : Ident
  members : List MemberDecl
  deriving DecidableEq

/-! ## The definitions of `Helpers.h` -/

/-- `BEFRIEND_ATTORNEY(AttorneyClass)` expands to `friend class F##AttorneyClass##Attorney;`. -/
def BEFRIEND_ATTORNEY (AttorneyClass : Ident) : List MemberDecl :=
  [.friendClass ("F" ++ AttorneyClass ++ "Attorney")]

/-- The alias `FDecayedClientType = TDecay<ClientType>::Type`. -/
def FDecayedClientType (ClientType : CType) : ObjectType := TDecay ClientType

/-- The alias `FClientType = FDecayedClientType*`. -/
def FClientType (ClientType : CType) : ObjectType :=
  .pointer (FDecayedClientType ClientType) CVQual.unqualified

/-- `DECLARE_ATTORNEY_BEGIN(Name, ClientType)` opens `class F##Name##Attorney` and declares
the two aliases; the class body is left open. -/
def DECLARE_ATTORNEY_BEGIN (Name : Ident) (ClientType : CType) : ClassDef :=
  { key := .classKey
    name := "F" ++ Name ++ "Attorney"
    members :=
      [ .typeAlias "FDecayedClientType" (CType.ofObject (FDecayedClientType ClientType)),
        .typeAlias "FClientType" (CType.ofObject (FClientType ClientType)) ] }

/-- `BEFRIEND_PARTY(PartyClass)` expands to `friend class PartyClass;`. -/
def BEFRIEND_PARTY (PartyClass : Ident) : List MemberDecl :=
  [.friendClass PartyClass]

/-- `EXPOSE_CLIENT_FIELD(Field)` expands to the static member function
`static const decltype(FDecayedClientType::Field)& Get##Field(const FClientType Client) noexcept`
whose body is `return Client->Field;`.  `FClientType` is the alias of the enclosing class. -/
def EXPOSE_CLIENT_FIELD (FClientType : ObjectType) (Field : Ident) : List MemberDecl :=
  [.staticFunction
    { name := "Get" ++ Field
      isTemplate := false
      isNoexcept := true
      clientParam := (CType.ofObject FClientType).addConst
      uses := [.typeOf Field, .access Field] }]

/-- `EXPOSE_CLIENT_METHOD(MethodName)` expands to the static member function template
`static auto MethodName(const FClientType Client, Args&&... Parameters) noexcept -> decltype(...)`
whose declaration and body hold the call `Client->MethodName(Forward<Args>(Parameters)...)`
four times: in the return type, in the alias `ReturnType`, and in the two branches of
`if constexpr (std::is_void_v<ReturnType>)`. -/
def EXPOSE_CLIENT_METHOD (FClientType : ObjectType) (MethodName : Ident) : List MemberDecl :=
  [.staticFunction
    { name := MethodName
      isTemplate := true
      isNoexcept := true
      clientParam := (CType.ofObject FClientType).addConst
      uses := [.call MethodName, .call MethodName, .call MethodName, .call MethodName] }]

/-- `DECLARE_ATTORNEY_END()` expands to the closing brace and semicolon of the class: the body
collected so far is the class. -/
def DECLARE_ATTORNEY_END (openClass : ClassDef) : ClassDef := openClass

/-- One use of a body definition between `DECLARE_ATTORNEY_BEGIN` and `DECLARE_ATTORNEY_END`. -/
inductive AttorneyItem
  | befriendParty (PartyClass : Ident)
  | exposeField (Field : Ident)
  | exposeMethod (MethodName : Ident)
  deriving DecidableEq

/-- Expansion of one body item inside an attorney whose client type is `ClientType`. -/
def AttorneyItem.expand (ClientType : CType) : AttorneyItem → List MemberDecl
  | .befriendParty PartyClass => BEFRIEND_PARTY PartyClass
  | .exposeField Field => EXPOSE_CLIENT_FIELD (FClientType ClientType) Field
  | .exposeMethod MethodName => EXPOSE_CLIENT_METHOD (FClientType ClientType) MethodName

/-- The class generated by
`DECLARE_ATTORNEY_BEGIN(Name, ClientType) items... DECLARE_ATTORNEY_END()`. -/
def attorneyClass (Name : Ident) (ClientType : CType) (items : List AttorneyItem) : ClassDef :=
  let head := DECLARE_ATTORNEY_BEGIN Name ClientType
  DECLARE_ATTORNEY_END
    { key := head.key
      name := head.name
      members := head.members ++ items.flatMap (AttorneyItem.expand ClientType) }

/-- Name of the member an exposure item declares in the attorney. -/
def AttorneyItem.memberName : AttorneyItem → Option Ident
  | .befriendParty _ => none
  | .exposeField Field => some ("Get" ++ Field)
  | .exposeMethod MethodName => some MethodName

/-! ## Member access -/

/-- Access of members declared before the first access specifier. -/
def ClassKey.defaultAccess : ClassKey → Access
  | .classKey => .priv
  | .structKey => .pub

/-- The name a declaration introduces as a member of the class, if it introduces one. -/
def MemberDecl.declaredName : MemberDecl → Option Ident
  | .accessSpecifier _ => none
  | .friendClass _ => none
  | .typeAlias n _ => some n
  | .dataMember f => some f.name
  | .memberFunction m => some m.name
  | .staticFunction f => some f.name

/-- Walks a class body: each member gets the access in force where it is declared. -/
def accessTable (current : Access) : List MemberDecl → List (Ident × Access)
  | [] => []
  | .accessSpecifier a :: rest => accessTable a rest
  | d :: rest =>
    match d.declaredName with
    | some n => (n, current) :: accessTable current rest
    | none => accessTable current rest

/-- Access of the member `m` of class `c`, when `c` declares such a member. -/
def ClassDef.memberAccess (c : ClassDef) (m : Ident) : Option Access :=
  (accessTable c.key.defaultAccess c.members).lookup m

/-- The classes `c` declares as friends. -/
def ClassDef.friends (c : ClassDef) : List Ident :=
  c.members.filterMap fun d =>
    match d with
    | .friendClass n => some n
    | _ => none

/-- Whether code in the member functions of class `context` may name member `m` of `c`:
a public member always, any other member only from `c` itself and from its friends.
Friendship is taken from the friend declarations of `c` alone. -/
def ClassDef.canAccess (c : ClassDef) (context : Ident) (m : Ident) : Bool :=
  match c.memberAccess m with
  | none => false
  | some .pub => true
  | some _ => context == c.name || c.friends.contains context

/-- The static member functions declared in a class body. -/
def ClassDef.staticFunctions (c : ClassDef) : List StaticFunctionDecl :=
  c.members.filterMap fun d =>
    match d with
    | .staticFunction f => some f
    | _ => none

/-- Whether class `party` reaches member `m` of `client` through class `via`: `via` has a
static function that `party` may call, that names `m`, and that `via` is allowed to write. -/
def reachesThrough (via client : ClassDef) (party : Ident) (m : Ident) : Bool :=
  via.staticFunctions.any fun g =>
    via.canAccess party g.name && g.clientMembers.contains m && client.canAccess via.name m

/-- Whether a declaration is one of the kinds that have no code: an access specifier, a friend
declaration or a type alias. -/
def MemberDecl.isDeclarationOnly : MemberDecl → Bool
  | .accessSpecifier _ => true
  | .friendClass _ => true
  | .typeAlias _ _ => true
  | .dataMember _ => false
  | .memberFunction _ => false
  | .staticFunction _ => false

/-- The declaration that name lookup finds in class `c` for the name `n`: the first one in
the body that declares a member of that name. -/
def ClassDef.findMember (c : ClassDef) (n : Ident) : Option MemberDecl :=
  c.members.find? fun d => d.declaredName == some n

/-- Reasons for which the code of a generated function is rejected by the compiler. -/
inductive CompileError
  /-- `Client->` where `Client` is not a pointer to an object of the client class. -/
  | notAClientPointer (type : CType)
  | noSuchMember (cls : Ident) (member : Ident)
  /-- The name of a type where a member access needs the name of an object or function. -/
  | typeName (cls : Ident) (member : Ident)
  | inaccessible (cls : Ident) (member : Ident) (context : Ident)
  | notADataMember (cls : Ident) (member : Ident)
  | notCallable (cls : Ident) (member : Ident)
  /-- A member function that is not `const` called on a `const` or `volatile` object. -/
  | qualifiersDiscarded (cls : Ident) (member : Ident)
  deriving DecidableEq

/-- The qualifiers of the object `*Client` for a `Client` of type `clientParam`, when that
type is a pointer to the client class. -/
def clientQualifiers (client : ClassDef) (clientParam : CType) : Option CVQual :=
  match clientParam.object with
  | .pointer (.named C cv) _ => if C == client.name then some cv else none
  | _ => none

/-- Name lookup for one use in the generated function `g`: `FDecayedClientType::` and
`Client->` have to designate the client class, and the name has to be that of a member of
the class that is not a type.  None of this depends on a template parameter, so it is checked
where the function is defined.  Gives the qualifiers of `*Client` and the member found. -/
def checkLookup (client : ClassDef) (g : StaticFunctionDecl) (u : MemberUse) :
    Except CompileError (CVQual × MemberDecl) :=
  match clientQualifiers client g.clientParam with
  | none => .error (.notAClientPointer g.clientParam)
  | some cv =>
    match client.findMember u.member with
    | none => .error (.noSuchMember client.name u.member)
    | some (.typeAlias _ _) => .error (.typeName client.name u.member)
    | some d => .ok (cv, d)

/-- Whether the member `d` can stand in `decltype(FDecayedClientType::m)` and in
`return Client->m;`: a data member, or a static member function that is not a template. -/
def MemberDecl.usableAsValue : MemberDecl → Bool
  | .dataMember _ => true
  | .staticFunction sf => !sf.isTemplate
  | _ => false

/-- Whether the member `d` can be called as `Client->m(...)` on an object with qualifiers
`cv`: a member function whose qualifiers admit the object, a static member function, or a
data member of a type that can be called; `callable` tells which types can. -/
def MemberDecl.usableAsCall (callable : CType → Bool) (cv : CVQual) : MemberDecl → Bool
  | .memberFunction md => !cv.isVolatile && (!cv.isConst || md.isConst)
  | .staticFunction _ => true
  | .dataMember f => callable f.type
  | _ => false

/-- The full check of one use in the generated function `g` of class `attorney`: lookup,
access from the attorney, and the kind of member the use needs. -/
def checkUse (callable : CType → Bool) (client : ClassDef) (attorney : Ident)
    (g : StaticFunctionDecl) (u : MemberUse) : Except CompileError Unit :=
  match checkLookup client g u with
  | .error e => .error e
  | .ok (cv, d) =>
    if client.canAccess attorney u.member then
      match u with
      | .typeOf m =>
        if d.usableAsValue then .ok () else .error (.notADataMember client.name m)
      | .access m =>
        if d.usableAsValue then .ok () else .error (.notADataMember client.name m)
      | .call m =>
        match d with
        | .memberFunction _ =>
          if d.usableAsCall callable cv then .ok ()
          else .error (.qualifiersDiscarded client.name m)
        | _ =>
          if d.usableAsCall callable cv then .ok () else .error (.notCallable client.name m)
    else .error (.inaccessible client.name u.member attorney)

/-- Whether a use in `g` depends on a template parameter: the calls that pass on the
parameter pack of a function template. -/
def MemberUse.isDependent (g : StaticFunctionDecl) : MemberUse → Bool
  | .call _ => g.isTemplate
  | _ => false

/-- The first rejection in a list of checks. -/
def firstError : List (Except CompileError Unit) → Except CompileError Unit
  | [] => .ok ()
  | .error e :: _ => .error e
  | .ok () :: rest => firstError rest

/-- The check made where the generated function `g` is defined: every use is looked up, and
the uses that do not depend on a template parameter are checked in full. -/
def checkDefinition (callable : CType → Bool) (client : ClassDef) (attorney : Ident)
    (g : StaticFunctionDecl) : Except CompileError Unit :=
  firstError (g.uses.map fun u =>
    if u.isDependent g then
      match checkLookup client g u with
      | .error e => .error e
      | .ok _ => .ok ()
    else checkUse callable client attorney g u)

/-- The check made where the generated function `g` is called, which for a template is where
it is instantiated: every use is checked in full. -/
def checkInstantiation (callable : CType → Bool) (client : ClassDef) (attorney : Ident)
    (g : StaticFunctionDecl) : Except CompileError Unit :=
  firstError (g.uses.map (checkUse callable client attorney g))

/-- Compiles `DECLARE_ATTORNEY_BEGIN(Name, ClientType) items... DECLARE_ATTORNEY_END()`
against the definition of the client class: each static function declared in the generated
class is checked where it is defined. -/
def compileAttorney (callable : CType → Bool) (client : ClassDef) (Name : Ident)
    (ClientType : CType) (items : List AttorneyItem) : Except CompileError ClassDef :=
  match firstError ((attorneyClass Name ClientType items).staticFunctions.map
      (checkDefinition callable client (attorneyClass Name ClientType items).name)) with
  | .error e => .error e
  | .ok () => .ok (attorneyClass Name ClientType items)

/-! ## Program state -/

/-- Address of an object; `0` is the null pointer. -/
abbrev Address := Nat

/-- Value category of an argument expression. -/
inductive ValueCategory
  | lvalue
  | rvalue
  deriving DecidableEq

/-- An argument of a call: its value and its value category. -/
structure Argument (V : Type) where
  value : V
  category : ValueCategory
  deriving DecidableEq

/-- An object: the values of its data members, by name. -/
abbrev Object (V : Type) := List (Ident × V)

/-- The live objects, by address. -/
abbrev Heap (V : Type) := List (Address × Object V)

/-- One invocation of a member function. -/
structure CallRecord (V : Type) where
  object : Address
  method : Ident
  arguments : List (Argument V)
  deriving DecidableEq

/-- Program state: the live objects and the member-function invocations made so far. -/
structure State (V : Type) where
  heap : Heap V
  calls : List (CallRecord V)
  deriving DecidableEq

/-- The object a pointer points to; nothing for the null pointer and for an address that
holds no live object. -/
def State.deref {V : Type} (s : State V) (p : Address) : Option (Object V) :=
  if p = 0 then none else s.heap.lookup p

/-- The value of data member `f` of the object at `p`. -/
def State.field {V : Type} (s : State V) (p : Address) (f : Ident) : Option V :=
  (s.deref p).bind fun obj => obj.lookup f

/-- The heap with data member `f` of the object at `p` set to `v`. -/
def setField {V : Type} (h : Heap V) (p : Address) (f : Ident) (v : V) : Heap V :=
  h.map fun entry =>
    if entry.1 == p then
      (entry.1, entry.2.map fun cell => if cell.1 == f then (cell.1, v) else cell)
    else entry

/-- How the evaluation of a call ends. -/
inductive Outcome (R V E : Type)
  /-- The call returns `result` and leaves `state`. -/
  | returned (result : R) (state : State V)
  /-- An exception leaves the call and reaches the caller. -/
  | threw (exception : E) (state : State V)
  /-- The program is ended by `std::terminate`. -/
  | terminated
  /-- The behaviour is undefined. -/
  | undefined
  deriving DecidableEq

/-- The body of a member function of the client: given `this`, the arguments and the heap it
leaves a heap and either completes or throws.  The two cases are the two values of
`std::is_void_v` of its return type. -/
inductive MethodImpl (V E : Type)
  | returnsVoid (body : Address → List (Argument V) → Heap V → Heap V × Option E)
  | returnsValue (body : Address → List (Argument V) → Heap V → Heap V × Except E V)

/-- The direct call `c->MethodName(args...)`.  A call through a pointer that points to no
object is undefined; otherwise the invocation is recorded and the body runs. -/
def callMember {V E : Type} (MethodName : Ident) (impl : MethodImpl V E) (c : Address)
    (args : List (Argument V)) (s : State V) : Outcome (Option V) V E :=
  match s.deref c with
  | none => .undefined
  | some _ =>
    let calls := s.calls ++ [⟨c, MethodName, args⟩]
    match impl with
    | .returnsVoid body =>
      match body c args s.heap with
      | (heap, none) => .returned none ⟨heap, calls⟩
      | (heap, some e) => .threw e ⟨heap, calls⟩
    | .returnsValue body =>
      match body c args s.heap with
      | (heap, .ok v) => .returned (some v) ⟨heap, calls⟩
      | (heap, .error e) => .threw e ⟨heap, calls⟩

/-- A function declared `noexcept`: an exception that would leave it ends the program. -/
def noexceptBoundary {R V E : Type} : Outcome R V E → Outcome R V E
  | .threw _ _ => .terminated
  | o => o

/-! ## The getter of `EXPOSE_CLIENT_FIELD` -/

/-- What a reference is bound to. -/
inductive RefTarget (V : Type)
  /-- Data member `field` of the object at `object`. -/
  | member (object : Address) (field : Ident)
  /-- A temporary that holds a copy of a value. -/
  | temporary (copy : V)
  deriving DecidableEq

/-- A reference: what it is bound to and its type. -/
structure Reference (V : Type) where
  target : RefTarget V
  type : CType
  deriving DecidableEq

/-- The return type `const decltype(FDecayedClientType::Field)&` for the declaration of
`Field` in the client. -/
def EXPOSE_CLIENT_FIELD.returnType (field : FieldDecl) : CType :=
  field.type.addConst.addLValueRef

/-- The body `return Client->Field;` of the getter.  `Client->` on a pointer that points to no
object is undefined.  The returned reference is bound to the member itself, except for a
bit-field: a reference cannot bind to a bit-field, so it is bound to a temporary copy. -/
def EXPOSE_CLIENT_FIELD.body {V E : Type} (field : FieldDecl) (Client : Address)
    (s : State V) : Outcome (Reference V) V E :=
  match s.deref Client with
  | none => .undefined
  | some obj =>
    match obj.lookup field.name with
    | none => .undefined
    | some v =>
      match field.bitWidth with
      | some _ => .returned ⟨.temporary v, EXPOSE_CLIENT_FIELD.returnType field⟩ s
      | none => .returned ⟨.member Client field.name, EXPOSE_CLIENT_FIELD.returnType field⟩ s

/-- The call `Get##Field(Client)` of the generated getter, which is declared `noexcept`. -/
def EXPOSE_CLIENT_FIELD.Get {V E : Type} (field : FieldDecl) (Client : Address)
    (s : State V) : Outcome (Reference V) V E :=
  noexceptBoundary (EXPOSE_CLIENT_FIELD.body field Client s)

/-- Reading through a reference in state `s`.  A temporary made inside a function that has
returned no longer exists: no value is read. -/
def State.read {V : Type} (s : State V) (r : Reference V) : Option V :=
  match r.target with
  | .member p f => s.field p f
  | .temporary _ => none

/-- Writing `v` through a reference in state `s`: refused when the type of the reference is
read-only or when the reference is not bound to a member. -/
def State.write {V : Type} (s : State V) (r : Reference V) (v : V) : Option (State V) :=
  if r.type.isReadOnly then none
  else
    match r.target with
    | .member p f => some ⟨setField s.heap p f v, s.calls⟩
    | .temporary _ => none

/-! ## The forwarder of `EXPOSE_CLIENT_METHOD` -/

/-- Template argument deduced for a parameter `Args&&` from an argument: `T&` for an lvalue,
`T` for an rvalue. -/
def deduce {V : Type} (a : Argument V) : RefKind :=
  match a.category with
  | .lvalue => .lvalue
  | .rvalue => .none

/-- Modelled from the spec: `Forward<A>(parameter)` is a template of the host engine and is not
defined in this repository.  It passes the parameter on unchanged: it is a cast to `A&&`,
which is an lvalue when `A` is an lvalue reference and an rvalue otherwise. -/
def Forward {V : Type} (A : RefKind) (parameter : V) : Argument V :=
  match A with
  | .lvalue => ⟨parameter, .lvalue⟩
  | _ => ⟨parameter, .rvalue⟩

/-- The body of the forwarder for deduced `Args` and the values of `Parameters`:
`if constexpr (std::is_void_v<ReturnType>)` the member is called and nothing is returned,
otherwise the value of the call is returned. -/
def EXPOSE_CLIENT_METHOD.body {V E : Type} (MethodName : Ident) (impl : MethodImpl V E)
    (Client : Address) (Args : List RefKind) (Parameters : List V) (s : State V) :
    Outcome (Option V) V E :=
  match impl with
  | .returnsVoid _ =>
    match callMember MethodName impl Client (List.zipWith Forward Args Parameters) s with
    | .returned _ s1 => .returned none s1
    | o => o
  | .returnsValue _ =>
    callMember MethodName impl Client (List.zipWith Forward Args Parameters) s

/-- The call `MethodName(Client, arguments...)` of the generated forwarder, which is declared
`noexcept`: `Args` is deduced from the arguments and each parameter holds its argument. -/
def EXPOSE_CLIENT_METHOD.invoke {V E : Type} (MethodName : Ident) (impl : MethodImpl V E)
    (Client : Address) (arguments : List (Argument V)) (s : State V) :
    Outcome (Option V) V E :=
  noexceptBoundary
    (EXPOSE_CLIENT_METHOD.body MethodName impl Client (arguments.map deduce)
      (arguments.map fun a => a.value) s)

/-- The heap the body of a member function leaves, whether it completes or throws. -/
def MethodImpl.heapAfter {V E : Type} (impl : MethodImpl V E) (this : Address)
    (args : List (Argument V)) (heap : Heap V) : Heap V :=
  match impl with
  | .returnsVoid body => (body this args heap).1
  | .returnsValue body => (body this args heap).1

/-- Whether the return type of a member function is `void`. -/
def MethodImpl.isVoid {V E : Type} : MethodImpl V E → Bool
  | .returnsVoid _ => true
  | .returnsValue _ => false

/-! ## A worked example

```
class AHero
{
    BEFRIEND_ATTORNEY(Hero)
public:
    void Tick();
private:
    int32 Health;
    int32 Mana;
    uint8 bAlive : 1;
    int32& Shared;
    int32 Heal(int32 Amount);
    void Reset();
    void Fail();
};

DECLARE_ATTORNEY_BEGIN(Hero, AHero)
    BEFRIEND_PARTY(UHud)
    EXPOSE_CLIENT_FIELD(Health)
    EXPOSE_CLIENT_METHOD(Heal)
DECLARE_ATTORNEY_END()
```
-/

/-- The client class of the example. -/
def exampleClient : ClassDef :=
  { key := .classKey
    name := "AHero"
    members := BEFRIEND_ATTORNEY "Hero" ++
      [ .accessSpecifier .pub,
        .memberFunction ⟨"Tick", false, true⟩,
        .accessSpecifier .priv,
        .dataMember ⟨"Health", CType.ofClass "int32", none⟩,
        .dataMember ⟨"Mana", CType.ofClass "int32", none⟩,
        .dataMember ⟨"bAlive", CType.ofClass "uint8", some 1⟩,
        .dataMember ⟨"Shared", (CType.ofClass "int32").addLValueRef, none⟩,
        .memberFunction ⟨"Heal", false, false⟩,
        .memberFunction ⟨"Reset", false, true⟩,
        .memberFunction ⟨"Fail", false, true⟩ ] }

/-- The body of the attorney of the example. -/
def exampleItems : List AttorneyItem :=
  [.befriendParty "UHud", .exposeField "Health", .exposeMethod "Heal"]

/-- The attorney class of the example. -/
def exampleAttorney : ClassDef := attorneyClass "Hero" (CType.ofClass "AHero") exampleItems

/-- A state with one live `AHero` at address `1`. -/
def exampleState : State Int :=
  ⟨[(1, [("Health", 40), ("Mana", 7), ("bAlive", 1), ("Shared", 3)])], []⟩

/-- The declaration `int32 Health;`. -/
def exampleHealth : FieldDecl := ⟨"Health", CType.ofClass "int32", none⟩

/-- The declaration `uint8 bAlive : 1;`. -/
def exampleAlive : FieldDecl := ⟨"bAlive", CType.ofClass "uint8", some 1⟩

/-- The declaration `int32& Shared;`. -/
def exampleShared : FieldDecl := ⟨"Shared", (CType.ofClass "int32").addLValueRef, none⟩

/-- The body of `int32 Heal(int32 Amount)`: adds `Amount` to `Health` and returns the new
value; throws when called without an argument. -/
def exampleHeal : MethodImpl Int String :=
  .returnsValue fun this args heap =>
    match args, (heap.lookup this).bind fun obj => obj.lookup "Health" with
    | amount :: _, some health =>
      (setField heap this "Health" (health + amount.value), .ok (health + amount.value))
    | _, _ => (heap, .error "Heal: bad call")

/-- The body of `void Reset()`: sets `Health` to `0`. -/
def exampleReset : MethodImpl Int String :=
  .returnsVoid fun this _ heap => (setField heap this "Health" 0, none)

/-- The body of `void Fail()`: sets `Mana` to `0` and throws. -/
def exampleFail : MethodImpl Int String :=
  .returnsVoid fun this _ heap => (setField heap this "Mana" 0, some "Fail: exception")

/-! ## Lemmas on the generated class -/

theorem attorneyClass_name (Name : Ident) (ClientType : CType) (items : List AttorneyItem) :
    (attorneyClass Name ClientType items).name = "F" ++ Name ++ "Attorney" := rfl

theorem attorneyClass_key (Name : Ident) (ClientType : CType) (items : List AttorneyItem) :
    (attorneyClass Name ClientType items).key = .classKey := rfl

theorem attorneyClass_members (Name : Ident) (ClientType : CType) (items : List AttorneyItem) :
    (attorneyClass Name ClientType items).members =
      (DECLARE_ATTORNEY_BEGIN Name ClientType).members ++
        items.flatMap (AttorneyItem.expand ClientType) := rfl

theorem expand_no_accessSpecifier (ClientType : CType) (item : AttorneyItem) (d : MemberDecl)
    (hd : d ∈ item.expand ClientType) (a : Access) : d ≠ .accessSpecifier a := by
  cases item <;>
    simp [AttorneyItem.expand, BEFRIEND_PARTY, EXPOSE_CLIENT_FIELD, EXPOSE_CLIENT_METHOD] at hd <;>
    simp [hd]

theorem attorneyClass_no_accessSpecifier (Name : Ident) (ClientType : CType)
    (items : List AttorneyItem) (d : MemberDecl)
    (hd : d ∈ (attorneyClass Name ClientType items).members) (a : Access) :
    d ≠ .accessSpecifier a := by
  rw [attorneyClass_members, List.mem_append] at hd
  rcases hd with hd | hd
  · simp [DECLARE_ATTORNEY_BEGIN] at hd
    rcases hd with hd | hd <;> simp [hd]
  · rw [List.mem_flatMap] at hd
    obtain ⟨item, _, hmem⟩ := hd
    exact expand_no_accessSpecifier ClientType item d hmem a

theorem accessTable_snd (current : Access) (ms : List MemberDecl)
    (hms : ∀ d ∈ ms, ∀ a, d ≠ .accessSpecifier a) :
    ∀ e ∈ accessTable current ms, e.2 = current := by
  induction ms with
  | nil => simp [accessTable]
  | cons d rest ih =>
    have hrest : ∀ d ∈ rest, ∀ a, d ≠ .accessSpecifier a :=
      fun x hx => hms x (List.mem_cons_of_mem _ hx)
    have hd := hms d (List.mem_cons_self _ _)
    cases d with
    | accessSpecifier a => exact absurd rfl (hd a)
    | friendClass n => simpa [accessTable, MemberDecl.declaredName] using ih hrest
    | typeAlias n t =>
      intro e he
      simp [accessTable, MemberDecl.declaredName] at he
      rcases he with he | he
      · simp [he]
      · exact ih hrest e he
    | dataMember f =>
      intro e he
      simp [accessTable, MemberDecl.declaredName] at he
      rcases he with he | he
      · simp [he]
      · exact ih hrest e he
    | memberFunction f =>
      intro e he
      simp [accessTable, MemberDecl.declaredName] at he
      rcases he with he | he
      · simp [he]
      · exact ih hrest e he
    | staticFunction f =>
      intro e he
      simp [accessTable, MemberDecl.declaredName] at he
      rcases he with he | he
      · simp [he]
      · exact ih hrest e he

theorem accessTable_mem (current : Access) (ms : List MemberDecl)
    (hms : ∀ d ∈ ms, ∀ a, d ≠ .accessSpecifier a) (d : MemberDecl) (hd : d ∈ ms)
    (n : Ident) (hn : d.declaredName = some n) :
    (n, current) ∈ accessTable current ms := by
  induction ms with
  | nil => simp at hd
  | cons x rest ih =>
    have hrest : ∀ d ∈ rest, ∀ a, d ≠ .accessSpecifier a :=
      fun y hy => hms y (List.mem_cons_of_mem _ hy)
    have hx := hms x (List.mem_cons_self _ _)
    rcases List.mem_cons.mp hd with rfl | hd
    · cases d <;> simp_all [accessTable, MemberDecl.declaredName]
    · have := ih hrest hd
      cases x with
      | accessSpecifier a => exact absurd rfl (hx a)
      | friendClass n => simpa [accessTable, MemberDecl.declaredName] using this
      | typeAlias n t => simp [accessTable, MemberDecl.declaredName, this]
      | dataMember f => simp [accessTable, MemberDecl.declaredName, this]
      | memberFunction f => simp [accessTable, MemberDecl.declaredName, this]
      | staticFunction f => simp [accessTable, MemberDecl.declaredName, this]

theorem lookup_of_uniform {α : Type} (table : List (Ident × α)) (v : α)
    (hall : ∀ e ∈ table, e.2 = v) (n : Ident) (hn : (n, v) ∈ table) :
    table.lookup n = some v := by
  induction table with
  | nil => simp at hn
  | cons e rest ih =>
    obtain ⟨k, w⟩ := e
    have hw : w = v := hall (k, w) (List.mem_cons_self _ _)
    by_cases hk : n = k
    · subst hk; simp [List.lookup, hw]
    · have hne : (n == k) = false := by simpa using hk
      have hmem : (n, v) ∈ rest := by
        rcases List.mem_cons.mp hn with h | h
        · exact absurd (congrArg Prod.fst h) hk
        · exact h
      simp only [List.lookup, hne]
      exact ih (fun e he => hall e (List.mem_cons_of_mem _ he)) hmem


theorem attorneyName_injective (N M : Ident)
    (h : "F" ++ N ++ "Attorney" = "F" ++ M ++ "Attorney") : N = M := by
  have hdata := congrArg String.data h
  simp only [String.data_append] at hdata
  exact String.ext (List.append_cancel_left (List.append_cancel_right hdata))

theorem mem_friends (c : ClassDef) (X : Ident) :
    X ∈ c.friends ↔ MemberDecl.friendClass X ∈ c.members := by
  unfold ClassDef.friends
  rw [List.mem_filterMap]
  constructor
  · rintro ⟨d, hd, hX⟩
    cases d <;> simp at hX
    subst hX
    exact hd
  · intro h
    exact ⟨_, h, rfl⟩

theorem mem_staticFunctions (c : ClassDef) (g : StaticFunctionDecl) :
    g ∈ c.staticFunctions ↔ MemberDecl.staticFunction g ∈ c.members := by
  unfold ClassDef.staticFunctions
  rw [List.mem_filterMap]
  constructor
  · rintro ⟨d, hd, hg⟩
    cases d <;> simp at hg
    subst hg
    exact hd
  · intro h
    exact ⟨_, h, rfl⟩

theorem mem_attorneyClass_members (Name : Ident) (ClientType : CType)
    (items : List AttorneyItem) (d : MemberDecl) :
    d ∈ (attorneyClass Name ClientType items).members ↔
      d ∈ (DECLARE_ATTORNEY_BEGIN Name ClientType).members ∨
        ∃ item ∈ items, d ∈ item.expand ClientType := by
  rw [attorneyClass_members, List.mem_append, List.mem_flatMap]

theorem attorneyClass_friend_iff (Name : Ident) (ClientType : CType)
    (items : List AttorneyItem) (P : Ident) :
    P ∈ (attorneyClass Name ClientType items).friends ↔ AttorneyItem.befriendParty P ∈ items := by
  rw [mem_friends, mem_attorneyClass_members]
  constructor
  · rintro (h | ⟨item, hitem, h⟩)
    · simp [DECLARE_ATTORNEY_BEGIN] at h
    · cases item <;>
        simp [AttorneyItem.expand, BEFRIEND_PARTY, EXPOSE_CLIENT_FIELD, EXPOSE_CLIENT_METHOD] at h
      subst h
      exact hitem
  · intro h
    exact Or.inr ⟨_, h, by simp [AttorneyItem.expand, BEFRIEND_PARTY]⟩

theorem attorneyClass_staticFunction_iff (Name : Ident) (ClientType : CType)
    (items : List AttorneyItem) (g : StaticFunctionDecl) :
    g ∈ (attorneyClass Name ClientType items).staticFunctions ↔
      ∃ item ∈ items, MemberDecl.staticFunction g ∈ item.expand ClientType := by
  rw [mem_staticFunctions, mem_attorneyClass_members]
  constructor
  · rintro (h | h)
    · simp [DECLARE_ATTORNEY_BEGIN] at h
    · exact h
  · intro h
    exact Or.inr h

theorem exposure_declares (ClientType : CType) (item : AttorneyItem) (m : Ident)
    (hm : item.memberName = some m) :
    ∃ g, MemberDecl.staticFunction g ∈ item.expand ClientType ∧ g.name = m := by
  cases item with
  | befriendParty P => simp [AttorneyItem.memberName] at hm
  | exposeField Field =>
    simp only [AttorneyItem.memberName, Option.some.injEq] at hm
    exact ⟨_, List.mem_singleton.mpr rfl, hm⟩
  | exposeMethod MethodName =>
    simp only [AttorneyItem.memberName, Option.some.injEq] at hm
    exact ⟨_, List.mem_singleton.mpr rfl, hm⟩

theorem attorneyClass_exposed_access (Name : Ident) (ClientType : CType)
    (items : List AttorneyItem) (item : AttorneyItem) (m : Ident)
    (hitem : item ∈ items) (hm : item.memberName = some m) :
    (attorneyClass Name ClientType items).memberAccess m = some .priv := by
  obtain ⟨g, hg, hname⟩ := exposure_declares ClientType item m hm
  have hmem : MemberDecl.staticFunction g ∈ (attorneyClass Name ClientType items).members :=
    (mem_attorneyClass_members Name ClientType items _).mpr (Or.inr ⟨item, hitem, hg⟩)
  have hno := attorneyClass_no_accessSpecifier Name ClientType items
  unfold ClassDef.memberAccess
  rw [attorneyClass_key]
  exact lookup_of_uniform _ _ (accessTable_snd _ _ hno) m
    (accessTable_mem _ _ hno _ hmem m (by simp [MemberDecl.declaredName, hname]))

theorem attorneyClass_static_access (Name : Ident) (ClientType : CType)
    (items : List AttorneyItem) (g : StaticFunctionDecl)
    (hg : g ∈ (attorneyClass Name ClientType items).staticFunctions) :
    (attorneyClass Name ClientType items).memberAccess g.name = some .priv := by
  have hmem := (mem_staticFunctions _ g).mp hg
  have hno := attorneyClass_no_accessSpecifier Name ClientType items
  unfold ClassDef.memberAccess
  rw [attorneyClass_key]
  exact lookup_of_uniform _ _ (accessTable_snd _ _ hno) g.name
    (accessTable_mem _ _ hno _ hmem g.name (by simp [MemberDecl.declaredName]))

theorem canAccess_private (c : ClassDef) (P m : Ident) (hm : c.memberAccess m = some .priv) :
    c.canAccess P m = true ↔ P = c.name ∨ P ∈ c.friends := by
  simp [ClassDef.canAccess, hm]

theorem forward_deduce {V : Type} (a : Argument V) : Forward (deduce a) a.value = a := by
  obtain ⟨v, cat⟩ := a
  cases cat <;> rfl

theorem forward_arguments {V : Type} (args : List (Argument V)) :
    List.zipWith Forward (args.map deduce) (args.map fun a => a.value) = args := by
  induction args with
  | nil => rfl
  | cons a rest ih =>
    simp only [List.map_cons, List.zipWith_cons_cons, forward_deduce, ih]

theorem callMember_invalid {V E : Type} (MethodName : Ident) (impl : MethodImpl V E)
    (c : Address) (args : List (Argument V)) (s : State V) (h : s.deref c = none) :
    callMember MethodName impl c args s = .undefined := by
  simp [callMember, h]

theorem callMember_valid {V E : Type} (MethodName : Ident) (impl : MethodImpl V E)
    (c : Address) (args : List (Argument V)) (s : State V) (obj : Object V)
    (h : s.deref c = some obj) :
    (∃ r, callMember MethodName impl c args s =
        .returned r ⟨impl.heapAfter c args s.heap, s.calls ++ [⟨c, MethodName, args⟩]⟩
      ∧ (impl.isVoid = true → r = none) ∧ (impl.isVoid = false → r.isSome = true))
    ∨ (∃ e, callMember MethodName impl c args s =
        .threw e ⟨impl.heapAfter c args s.heap, s.calls ++ [⟨c, MethodName, args⟩]⟩) := by
  cases impl with
  | returnsVoid body =>
    simp only [callMember, h, MethodImpl.heapAfter]
    rcases hb : body c args s.heap with ⟨heap, _ | e⟩
    · left; exact ⟨none, rfl, fun _ => rfl, by simp [MethodImpl.isVoid]⟩
    · right; exact ⟨e, rfl⟩
  | returnsValue body =>
    simp only [callMember, h, MethodImpl.heapAfter]
    rcases hb : body c args s.heap with ⟨heap, e | v⟩
    · right; exact ⟨e, rfl⟩
    · left; exact ⟨some v, rfl, by simp [MethodImpl.isVoid], fun _ => rfl⟩

theorem callMember_cases {V E : Type} (MethodName : Ident) (impl : MethodImpl V E)
    (c : Address) (args : List (Argument V)) (s : State V) :
    callMember MethodName impl c args s = .undefined
    ∨ (∃ r, callMember MethodName impl c args s =
        .returned r ⟨impl.heapAfter c args s.heap, s.calls ++ [⟨c, MethodName, args⟩]⟩
      ∧ (impl.isVoid = true → r = none) ∧ (impl.isVoid = false → r.isSome = true))
    ∨ (∃ e, callMember MethodName impl c args s =
        .threw e ⟨impl.heapAfter c args s.heap, s.calls ++ [⟨c, MethodName, args⟩]⟩) := by
  cases h : s.deref c with
  | none => exact Or.inl (callMember_invalid MethodName impl c args s h)
  | some obj => exact Or.inr (callMember_valid MethodName impl c args s obj h)

theorem forwarder_body_eq {V E : Type} (MethodName : Ident) (impl : MethodImpl V E)
    (c : Address) (args : List (Argument V)) (s : State V) :
    EXPOSE_CLIENT_METHOD.body MethodName impl c (args.map deduce) (args.map fun a => a.value) s
      = callMember MethodName impl c args s := by
  unfold EXPOSE_CLIENT_METHOD.body
  rw [forward_arguments]
  cases impl with
  | returnsValue body => rfl
  | returnsVoid body =>
    rcases callMember_cases MethodName (.returnsVoid body) c args s with h | ⟨r, h, hv, _⟩ | ⟨e, h⟩
    · simp only [h]
    · have hr : r = none := hv rfl
      subst hr
      simp only [h]
    · simp only [h]

theorem invoke_eq {V E : Type} (MethodName : Ident) (impl : MethodImpl V E)
    (c : Address) (args : List (Argument V)) (s : State V) :
    EXPOSE_CLIENT_METHOD.invoke MethodName impl c args s
      = noexceptBoundary (callMember MethodName impl c args s) := by
  unfold EXPOSE_CLIENT_METHOD.invoke
  rw [forwarder_body_eq]

theorem noexceptBoundary_ne_threw {R V E : Type} (o : Outcome R V E) (e : E) (s : State V) :
    noexceptBoundary o ≠ .threw e s := by
  cases o <;> simp [noexceptBoundary]

theorem noexceptBoundary_returned {R V E : Type} (o : Outcome R V E) (r : R) (s : State V) :
    noexceptBoundary o = .returned r s ↔ o = .returned r s := by
  cases o <;> simp [noexceptBoundary]

theorem getter_body_cases {V E : Type} (field : FieldDecl) (c : Address) (s : State V) :
    (EXPOSE_CLIENT_FIELD.body field c s : Outcome (Reference V) V E) = .undefined
    ∨ ∃ r, (EXPOSE_CLIENT_FIELD.body field c s : Outcome (Reference V) V E) = .returned r s := by
  unfold EXPOSE_CLIENT_FIELD.body
  cases hd : s.deref c with
  | none => exact Or.inl rfl
  | some obj =>
    cases hl : List.lookup field.name obj with
    | none => exact Or.inl (by simp only [hl])
    | some v =>
      cases hb : field.bitWidth with
      | none =>
        exact Or.inr ⟨⟨.member c field.name, EXPOSE_CLIENT_FIELD.returnType field⟩,
          by simp only [hl]⟩
      | some w =>
        exact Or.inr ⟨⟨.temporary v, EXPOSE_CLIENT_FIELD.returnType field⟩, by simp only [hl]⟩

theorem getter_cases {V E : Type} (field : FieldDecl) (c : Address) (s : State V) :
    (EXPOSE_CLIENT_FIELD.Get field c s : Outcome (Reference V) V E) = .undefined
    ∨ ∃ r, (EXPOSE_CLIENT_FIELD.Get field c s : Outcome (Reference V) V E) = .returned r s := by
  unfold EXPOSE_CLIENT_FIELD.Get
  rcases getter_body_cases (E := E) field c s with h | ⟨r, h⟩
  · left; rw [h]; rfl
  · right; exact ⟨r, by rw [h]; rfl⟩

theorem getter_of_field {V E : Type} (field : FieldDecl) (c : Address) (s : State V) (v : V)
    (hbit : field.bitWidth = none) (hv : s.field c field.name = some v) :
    (EXPOSE_CLIENT_FIELD.Get field c s : Outcome (Reference V) V E) =
      .returned ⟨.member c field.name, EXPOSE_CLIENT_FIELD.returnType field⟩ s := by
  unfold State.field at hv
  cases hd : s.deref c with
  | none => simp [hd] at hv
  | some obj =>
    simp only [hd, Option.some_bind] at hv
    simp [EXPOSE_CLIENT_FIELD.Get, EXPOSE_CLIENT_FIELD.body, hd, hv, hbit, noexceptBoundary]

theorem deref_null {V : Type} (s : State V) : s.deref 0 = none := by
  simp [State.deref]

theorem cv_withCV (t : ObjectType) (q : CVQual) : (t.withCV q).cv = q := by
  cases t <;> rfl

theorem withCV_withCV (t : ObjectType) (q q2 : CVQual) : (t.withCV q).withCV q2 = t.withCV q2 := by
  cases t <;> rfl

theorem withCV_cv (t : ObjectType) : t.withCV t.cv = t := by
  cases t <;> rfl

theorem returnType_of_object (field : FieldDecl) (href : field.type.ref = .none) :
    EXPOSE_CLIENT_FIELD.returnType field =
      ⟨field.type.object.withCV ⟨true, field.type.object.cv.isVolatile⟩, .lvalue⟩ := by
  simp [EXPOSE_CLIENT_FIELD.returnType, CType.addConst, CType.addLValueRef, href]

theorem invoke_valid {V E : Type} (MethodName : Ident) (impl : MethodImpl V E)
    (c : Address) (args : List (Argument V)) (s : State V) (obj : Object V)
    (h : s.deref c = some obj) :
    (∃ r s1, EXPOSE_CLIENT_METHOD.invoke MethodName impl c args s = .returned r s1
        ∧ callMember MethodName impl c args s = .returned r s1)
    ∨ (EXPOSE_CLIENT_METHOD.invoke MethodName impl c args s = .terminated
        ∧ ∃ e s1, callMember MethodName impl c args s = .threw e s1) := by
  rw [invoke_eq]
  rcases callMember_valid MethodName impl c args s obj h with ⟨r, hr, _⟩ | ⟨e, he⟩
  · left; exact ⟨r, _, by rw [hr]; rfl, hr⟩
  · right; exact ⟨by rw [he]; rfl, e, _, he⟩

theorem invoke_returned {V E : Type} (MethodName : Ident) (impl : MethodImpl V E)
    (c : Address) (args : List (Argument V)) (s : State V) (r : Option V) (s1 : State V)
    (h : EXPOSE_CLIENT_METHOD.invoke MethodName impl c args s = .returned r s1) :
    callMember MethodName impl c args s = .returned r s1
    ∧ s1 = ⟨impl.heapAfter c args s.heap, s.calls ++ [⟨c, MethodName, args⟩]⟩ := by
  rw [invoke_eq, noexceptBoundary_returned] at h
  refine ⟨h, ?_⟩
  rcases callMember_cases MethodName impl c args s with hu | ⟨r2, hr, _⟩ | ⟨e, he⟩
  · rw [hu] at h; cases h
  · rw [hr] at h; cases h; rfl
  · rw [he] at h; cases h

theorem invoke_null {V E : Type} (MethodName : Ident) (impl : MethodImpl V E)
    (args : List (Argument V)) (s : State V) :
    EXPOSE_CLIENT_METHOD.invoke MethodName impl 0 args s = .undefined := by
  rw [invoke_eq, callMember_invalid MethodName impl 0 args s (deref_null s)]
  rfl

theorem getter_null {V E : Type} (field : FieldDecl) (s : State V) :
    (EXPOSE_CLIENT_FIELD.Get field 0 s : Outcome (Reference V) V E) = .undefined := by
  simp [EXPOSE_CLIENT_FIELD.Get, EXPOSE_CLIENT_FIELD.body, deref_null, noexceptBoundary]

theorem getter_of_valid {V E : Type} (field : FieldDecl) (c : Address) (s : State V) (v : V)
    (hv : s.field c field.name = some v) :
    ∃ r, (EXPOSE_CLIENT_FIELD.Get field c s : Outcome (Reference V) V E) = .returned r s := by
  unfold State.field at hv
  cases hd : s.deref c with
  | none => simp [hd] at hv
  | some obj =>
    simp only [hd, Option.some_bind] at hv
    cases hb : field.bitWidth with
    | none =>
      exact ⟨⟨.member c field.name, EXPOSE_CLIENT_FIELD.returnType field⟩, by
        simp [EXPOSE_CLIENT_FIELD.Get, EXPOSE_CLIENT_FIELD.body, hd, hv, hb, noexceptBoundary]⟩
    | some w =>
      exact ⟨⟨.temporary v, EXPOSE_CLIENT_FIELD.returnType field⟩, by
        simp [EXPOSE_CLIENT_FIELD.Get, EXPOSE_CLIENT_FIELD.body, hd, hv, hb, noexceptBoundary]⟩

/-! ## Lemmas on the compile-time checks -/

theorem firstError_of_mem (l : List (Except CompileError Unit)) (x : Except CompileError Unit)
    (hx : x ∈ l) (hbad : ∃ e, x = .error e) : ∃ e, firstError l = .error e := by
  induction l with
  | nil => simp at hx
  | cons y rest ih =>
    cases y with
    | error e => exact ⟨e, rfl⟩
    | ok u =>
      rcases List.mem_cons.mp hx with h | h
      · obtain ⟨e, he⟩ := hbad
        rw [h] at he
        cases he
      · exact ih h

theorem firstError_ok (l : List (Except CompileError Unit)) (h : ∀ x ∈ l, x = .ok ()) :
    firstError l = .ok () := by
  induction l with
  | nil => rfl
  | cons y rest ih =>
    have hy := h y (List.mem_cons_self _ _)
    subst hy
    exact ih fun x hx => h x (List.mem_cons_of_mem _ hx)

theorem checkLookup_error (client : ClassDef) (g : StaticFunctionDecl) (u : MemberUse)
    (h : client.findMember u.member = none) : ∃ e, checkLookup client g u = .error e := by
  unfold checkLookup
  cases clientQualifiers client g.clientParam with
  | none => exact ⟨_, rfl⟩
  | some cv => exact ⟨.noSuchMember client.name u.member, by simp only [h]⟩

theorem checkLookup_found (client : ClassDef) (g : StaticFunctionDecl) (u : MemberUse)
    (cv : CVQual) (d : MemberDecl) (h : checkLookup client g u = .ok (cv, d)) :
    client.findMember u.member = some d := by
  unfold checkLookup at h
  cases hq : clientQualifiers client g.clientParam with
  | none => simp [hq] at h
  | some cv2 =>
    cases hm : client.findMember u.member with
    | none => simp [hq, hm] at h
    | some d2 =>
      cases d2 <;> simp [hq, hm] at h <;> simp [h]

theorem checkUse_value_error (callable : CType → Bool) (client : ClassDef) (attorney : Ident)
    (g : StaticFunctionDecl) (F : Ident)
    (h : ∀ d, client.findMember F = some d → d.usableAsValue = false) :
    ∃ e, checkUse callable client attorney g (.typeOf F) = .error e := by
  unfold checkUse
  cases hl : checkLookup client g (.typeOf F) with
  | error e => exact ⟨e, rfl⟩
  | ok found =>
    obtain ⟨cv, d⟩ := found
    have hd := h d (checkLookup_found client g _ cv d hl)
    by_cases hacc : client.canAccess attorney (MemberUse.typeOf F).member = true
    · exact ⟨.notADataMember client.name F, by
        simp only [hacc, if_true, hd, Bool.false_eq_true, if_false]⟩
    · exact ⟨.inaccessible client.name (MemberUse.typeOf F).member attorney, by
        simp only [hacc, if_false]; rfl⟩

theorem checkUse_call_error (callable : CType → Bool) (client : ClassDef) (attorney : Ident)
    (g : StaticFunctionDecl) (M : Ident)
    (h : ∀ cv d, client.findMember M = some d → d.usableAsCall callable cv = false) :
    ∃ e, checkUse callable client attorney g (.call M) = .error e := by
  unfold checkUse
  cases hl : checkLookup client g (.call M) with
  | error e => exact ⟨e, rfl⟩
  | ok found =>
    obtain ⟨cv, d⟩ := found
    have hd := h cv d (checkLookup_found client g _ cv d hl)
    by_cases hacc : client.canAccess attorney (MemberUse.call M).member = true
    · cases d <;> simp only [hacc, if_true, hd, Bool.false_eq_true, if_false] <;>
        exact ⟨_, rfl⟩
    · exact ⟨.inaccessible client.name (MemberUse.call M).member attorney, by
        simp only [hacc, if_false]; rfl⟩

theorem checkLookup_method (client : ClassDef) (g : StaticFunctionDecl) (M : Ident)
    (md : MethodDecl) (cv : CVQual)
    (hq : clientQualifiers client g.clientParam = some cv)
    (hmethod : client.findMember M = some (.memberFunction md)) :
    checkLookup client g (.call M) = .ok (cv, .memberFunction md) := by
  simp [checkLookup, hq, MemberUse.member, hmethod]

theorem checkUse_call_ok (callable : CType → Bool) (client : ClassDef) (attorney : Ident)
    (g : StaticFunctionDecl) (M : Ident) (md : MethodDecl)
    (hq : clientQualifiers client g.clientParam = some CVQual.unqualified)
    (hmethod : client.findMember M = some (.memberFunction md))
    (hacc : client.canAccess attorney M = true) :
    checkUse callable client attorney g (.call M) = .ok () := by
  simp [checkUse, checkLookup_method client g M md _ hq hmethod, MemberUse.member, hacc,
    MemberDecl.usableAsCall, CVQual.unqualified]

theorem clientQualifiers_generated (client : ClassDef) (T : CType) (cv : CVQual)
    (hT : T.object = .named client.name cv) :
    clientQualifiers client (CType.ofObject (FClientType T)).addConst
      = some CVQual.unqualified := by
  simp [clientQualifiers, CType.ofObject, CType.addConst, FClientType, FDecayedClientType,
    TDecay, hT, ObjectType.withCV, ObjectType.cv]

theorem compileAttorney_error (callable : CType → Bool) (client : ClassDef) (Name : Ident)
    (ClientType : CType) (items : List AttorneyItem) (g : StaticFunctionDecl)
    (hg : g ∈ (attorneyClass Name ClientType items).staticFunctions)
    (hbad : ∃ e, checkDefinition callable client (attorneyClass Name ClientType items).name g
      = .error e) :
    ∃ e, compileAttorney callable client Name ClientType items = .error e := by
  obtain ⟨e, he⟩ := firstError_of_mem _ _ (List.mem_map_of_mem _ hg) hbad
  exact ⟨e, by simp only [compileAttorney, he]⟩

/-! ## Friendship and access -/

/-- C3: for every identifier `N`, `BEFRIEND_ATTORNEY(N)` declares as friend exactly the class
that `DECLARE_ATTORNEY_BEGIN(N, ClientType)` generates.  Both build the name `F`, `N`,
`Attorney`; a class whose friend declarations are those of `BEFRIEND_ATTORNEY(N)` has the
generated attorney as its only friend; and an attorney generated for another name is a
different class, which the declaration does not befriend. -/
theorem befriend_attorney_targets_generated_class (N : Ident) (ClientType : CType)
    (items : List AttorneyItem) :
    BEFRIEND_ATTORNEY N = [.friendClass (attorneyClass N ClientType items).name]
    ∧ (DECLARE_ATTORNEY_BEGIN N ClientType).name = "F" ++ N ++ "Attorney"
    ∧ (attorneyClass N ClientType items).name = "F" ++ N ++ "Attorney"
    ∧ (∀ X : Ident, MemberDecl.friendClass X ∈ BEFRIEND_ATTORNEY N ↔
        X = (attorneyClass N ClientType items).name)
    ∧ (∀ (key : ClassKey) (C : Ident),
        (ClassDef.mk key C (BEFRIEND_ATTORNEY N)).friends =
          [(attorneyClass N ClientType items).name])
    ∧ (∀ (N2 : Ident) (T2 : CType) (items2 : List AttorneyItem),
        MemberDecl.friendClass (attorneyClass N2 T2 items2).name ∈ BEFRIEND_ATTORNEY N →
          N2 = N) := by
  refine ⟨rfl, rfl, rfl, ?_, ?_, ?_⟩
  · intro X
    simp [BEFRIEND_ATTORNEY, attorneyClass_name]
  · intro key C
    rfl
  · intro N2 T2 items2 h
    simp only [BEFRIEND_ATTORNEY, attorneyClass_name, List.mem_singleton,
      MemberDecl.friendClass.injEq] at h
    exact attorneyName_injective N2 N h

/-- C1: in the attorney generated by `DECLARE_ATTORNEY_BEGIN(Name, ClientType)`, body items,
`DECLARE_ATTORNEY_END()`, the class key is `class`, the body has no access specifier, and
every member `m` declared by an `EXPOSE_CLIENT_FIELD` or `EXPOSE_CLIENT_METHOD` item is
private.  A class `P` may use `m` if and only if `P` is the attorney itself or is named by a
`BEFRIEND_PARTY(P)` item of that attorney, and a class that is neither reaches no member of
a client through the attorney. -/
theorem exposed_members_private_to_parties (Name : Ident) (ClientType : CType)
    (items : List AttorneyItem) (item : AttorneyItem) (m P : Ident)
    (hitem : item ∈ items) (hm : item.memberName = some m) :
    (attorneyClass Name ClientType items).key = .classKey
    ∧ (∀ d ∈ (attorneyClass Name ClientType items).members, ∀ a, d ≠ .accessSpecifier a)
    ∧ (attorneyClass Name ClientType items).memberAccess m = some .priv
    ∧ ((attorneyClass Name ClientType items).canAccess P m = true ↔
        (P = (attorneyClass Name ClientType items).name ∨
          AttorneyItem.befriendParty P ∈ items))
    ∧ (P ≠ (attorneyClass Name ClientType items).name →
        AttorneyItem.befriendParty P ∉ items →
        ∀ (client : ClassDef) (x : Ident),
          reachesThrough (attorneyClass Name ClientType items) client P x = false) := by
  have hacc := attorneyClass_exposed_access Name ClientType items item m hitem hm
  refine ⟨rfl, attorneyClass_no_accessSpecifier Name ClientType items, hacc, ?_, ?_⟩
  · rw [canAccess_private _ P m hacc, attorneyClass_friend_iff]
  · intro hP hparty client x
    unfold reachesThrough
    rw [Bool.eq_false_iff]
    intro hany
    rw [List.any_eq_true] at hany
    obtain ⟨g, hg, hcond⟩ := hany
    simp only [Bool.and_eq_true] at hcond
    have hgacc := attorneyClass_static_access Name ClientType items g hg
    rcases (canAccess_private _ P g.name hgacc).mp hcond.1.1 with h | h
    · exact hP h
    · exact hparty ((attorneyClass_friend_iff Name ClientType items P).mp h)

/-- Witness of C1 on the example: the party `UHud` may call `GetHealth`, the class `AEnemy`,
which the attorney does not befriend, may not. -/
theorem exposed_members_private_to_parties_witness :
    AttorneyItem.exposeField "Health" ∈ exampleItems
    ∧ (AttorneyItem.exposeField "Health").memberName = some "GetHealth"
    ∧ exampleAttorney.memberAccess "GetHealth" = some .priv
    ∧ exampleAttorney.canAccess "UHud" "GetHealth" = true
    ∧ exampleAttorney.canAccess "AEnemy" "GetHealth" = false :=
  have hin : AttorneyItem.exposeField "Health" ∈ exampleItems := by decide
  have hname : (AttorneyItem.exposeField "Health").memberName = some "GetHealth" := by decide
  ⟨hin, hname,
    (exposed_members_private_to_parties "Hero" (CType.ofClass "AHero") exampleItems
      (.exposeField "Health") "GetHealth" "UHud" hin hname).2.2.1,
    ((exposed_members_private_to_parties "Hero" (CType.ofClass "AHero") exampleItems
      (.exposeField "Health") "GetHealth" "UHud" hin hname).2.2.2.1).mpr
        (Or.inr (by decide)),
    by
      have h := (exposed_members_private_to_parties "Hero" (CType.ofClass "AHero")
        exampleItems (.exposeField "Health") "GetHealth" "AEnemy" hin hname).2.2.2.1
      rw [Bool.eq_false_iff]
      intro hacc
      rcases h.mp hacc with h1 | h1
      · exact absurd h1 (by decide)
      · exact absurd h1 (by decide)⟩

/-- C4, counterexample.  For the bit-field `uint8 bAlive : 1` of the live object at address
`1`, which holds `1`, `GetbAlive` returns a reference bound to a temporary copy, not to the
member, and nothing can be read through it once the getter has returned.  For the member
`int32& Shared`, the return type `const decltype(...)&` is `int32&`: the returned reference is
not read-only, and a write of `9` through it changes the member. -/
theorem getter_bitfield_and_reference_counterexample :
    (EXPOSE_CLIENT_FIELD.Get exampleAlive 1 exampleState : Outcome (Reference Int) Int String)
      = .returned ⟨.temporary 1, ⟨.named "uint8" ⟨true, false⟩, .lvalue⟩⟩ exampleState
    ∧ exampleState.field 1 "bAlive" = some 1
    ∧ exampleState.read ⟨.temporary 1, ⟨.named "uint8" ⟨true, false⟩, .lvalue⟩⟩ = none
    ∧ (EXPOSE_CLIENT_FIELD.Get exampleShared 1 exampleState :
        Outcome (Reference Int) Int String)
      = .returned ⟨.member 1 "Shared", ⟨.named "int32" ⟨false, false⟩, .lvalue⟩⟩ exampleState
    ∧ CType.isReadOnly ⟨.named "int32" ⟨false, false⟩, .lvalue⟩ = false
    ∧ (exampleState.write ⟨.member 1 "Shared", ⟨.named "int32" ⟨false, false⟩, .lvalue⟩⟩ 9).bind
        (fun s => s.field 1 "Shared") = some 9 := by
  refine ⟨by decide, by decide, by decide, by decide, by decide, by decide⟩

/-- C4, amended.  Let field `F` of the client be neither a bit-field nor of reference type,
and let it hold `v` in the object the valid pointer `c` points to.  Then `GetF(c)` returns,
leaving the state as it is, a reference that is bound to that very member, is an lvalue
reference of read-only type (no write through it is accepted), and through which the value
of the member is read: `v` now, and in any later state the value the member has then. -/
theorem getter_returns_reference_to_field {V E : Type} (field : FieldDecl) (c : Address)
    (s : State V) (v : V)
    (hbit : field.bitWidth = none) (href : field.type.ref = .none)
    (hv : s.field c field.name = some v) :
    ∃ r : Reference V,
      (EXPOSE_CLIENT_FIELD.Get field c s : Outcome (Reference V) V E) = .returned r s
      ∧ r.target = .member c field.name
      ∧ r.type.ref = .lvalue
      ∧ r.type.isReadOnly = true
      ∧ s.read r = some v
      ∧ (∀ w : V, s.write r w = none)
      ∧ (∀ s2 : State V, s2.read r = s2.field c field.name) := by
  have hro : (EXPOSE_CLIENT_FIELD.returnType field).isReadOnly = true := by
    rw [returnType_of_object field href]
    simp [CType.isReadOnly, cv_withCV]
  refine ⟨⟨.member c field.name, EXPOSE_CLIENT_FIELD.returnType field⟩,
    getter_of_field field c s v hbit hv, rfl, ?_, hro, hv, ?_, fun _ => rfl⟩
  · rw [returnType_of_object field href]
  · intro w
    simp [State.write, hro]

/-- Witness of C4 on the example: `GetHealth` on the live object at address `1`. -/
theorem getter_returns_reference_to_field_witness :
    exampleHealth.bitWidth = none
    ∧ exampleHealth.type.ref = .none
    ∧ exampleState.field 1 exampleHealth.name = some 40
    ∧ ∃ r : Reference Int,
        (EXPOSE_CLIENT_FIELD.Get exampleHealth 1 exampleState :
          Outcome (Reference Int) Int String) = .returned r exampleState
        ∧ r.target = .member 1 "Health"
        ∧ exampleState.read r = some 40 :=
  have h1 : exampleHealth.bitWidth = none := rfl
  have h2 : exampleHealth.type.ref = .none := rfl
  have h3 : exampleState.field 1 exampleHealth.name = some 40 := by decide
  ⟨h1, h2, h3,
    (getter_returns_reference_to_field (E := String) exampleHealth 1 exampleState 40
      h1 h2 h3).imp fun _ h => ⟨h.1, h.2.1, h.2.2.2.2.1⟩⟩

/-! ## The forwarder -/

/-- C5, counterexample.  `void Fail()` throws: the direct call `c->Fail()` delivers the
exception to its caller, the forwarder `Fail(c)` ends the program instead. -/
theorem forwarder_differs_on_exception_counterexample :
    callMember "Fail" exampleFail 1 [] exampleState
      = .threw "Fail: exception"
          ⟨[(1, [("Health", 40), ("Mana", 0), ("bAlive", 1), ("Shared", 3)])],
            [⟨1, "Fail", []⟩]⟩
    ∧ EXPOSE_CLIENT_METHOD.invoke "Fail" exampleFail 1 [] exampleState = .terminated := by
  refine ⟨by decide, by decide⟩

/-- C5, amended.  Whenever the direct call `c->M(args...)` raises no exception, calling the
generated forwarder `M(c, args...)` is the same as the direct call.  The argument list that
reaches the member is the one given, in order, values and value categories unchanged.  With
a valid pointer the forwarder returns: the member has been invoked exactly once, the state is
the one its body leaves, nothing is returned when the return type is `void` and a value is
returned otherwise. -/
theorem forwarder_equals_direct_call {V E : Type} (MethodName : Ident)
    (impl : MethodImpl V E) (c : Address) (args : List (Argument V)) (s : State V)
    (hno : ∀ e s1, callMember MethodName impl c args s ≠ .threw e s1) :
    EXPOSE_CLIENT_METHOD.invoke MethodName impl c args s = callMember MethodName impl c args s
    ∧ List.zipWith Forward (args.map deduce) (args.map fun a => a.value) = args
    ∧ (∀ obj, s.deref c = some obj →
        ∃ r, EXPOSE_CLIENT_METHOD.invoke MethodName impl c args s =
            .returned r ⟨impl.heapAfter c args s.heap, s.calls ++ [⟨c, MethodName, args⟩]⟩
          ∧ (impl.isVoid = true → r = none) ∧ (impl.isVoid = false → r.isSome = true)) := by
  have heq : EXPOSE_CLIENT_METHOD.invoke MethodName impl c args s
      = callMember MethodName impl c args s := by
    rw [invoke_eq]
    rcases callMember_cases MethodName impl c args s with h | ⟨r, h, _⟩ | ⟨e, h⟩
    · rw [h]; rfl
    · rw [h]; rfl
    · exact absurd h (hno e _)
  refine ⟨heq, forward_arguments args, ?_⟩
  intro obj hobj
  rcases callMember_valid MethodName impl c args s obj hobj with ⟨r, h, hvoid⟩ | ⟨e, h⟩
  · exact ⟨r, by rw [heq, h], hvoid⟩
  · exact absurd h (hno e _)

/-- Witness of C5 on the example: `Heal(c, 5)` and `c->Heal(5)` on the live object at
address `1`. -/
theorem forwarder_equals_direct_call_witness :
    callMember "Heal" exampleHeal 1 [⟨5, .rvalue⟩] exampleState
      = .returned (some 45)
          ⟨[(1, [("Health", 45), ("Mana", 7), ("bAlive", 1), ("Shared", 3)])],
            [⟨1, "Heal", [⟨5, .rvalue⟩]⟩]⟩
    ∧ EXPOSE_CLIENT_METHOD.invoke "Heal" exampleHeal 1 [⟨5, .rvalue⟩] exampleState
      = callMember "Heal" exampleHeal 1 [⟨5, .rvalue⟩] exampleState :=
  have hcall : callMember "Heal" exampleHeal 1 [⟨5, .rvalue⟩] exampleState
      = .returned (some 45)
          ⟨[(1, [("Health", 45), ("Mana", 7), ("bAlive", 1), ("Shared", 3)])],
            [⟨1, "Heal", [⟨5, .rvalue⟩]⟩]⟩ := by decide
  ⟨hcall,
    (forwarder_equals_direct_call "Heal" exampleHeal 1 [⟨5, .rvalue⟩] exampleState
      (fun e s1 h => by rw [hcall] at h; cases h)).1⟩

/-- C9: the forwarder generated by `EXPOSE_CLIENT_METHOD` is declared `noexcept` whatever the
exposed member is.  For every client pointer, member and argument list, no exception leaves
the forwarder; when the direct call `c->M(args...)` returns, the forwarder returns the same
result and state; when the direct call delivers an exception to its caller, the forwarder
ends the program; and with a valid pointer one of the two happens. -/
theorem forwarder_never_delivers_exception {V E : Type} (FClientType : ObjectType)
    (MethodName : Ident) (impl : MethodImpl V E) (c : Address) (args : List (Argument V))
    (s : State V) :
    (∀ d ∈ EXPOSE_CLIENT_METHOD FClientType MethodName,
      ∃ g, d = .staticFunction g ∧ g.name = MethodName ∧ g.isNoexcept = true)
    ∧ (∀ e s1, EXPOSE_CLIENT_METHOD.invoke MethodName impl c args s ≠ .threw e s1)
    ∧ (∀ r s1, callMember MethodName impl c args s = .returned r s1 →
        EXPOSE_CLIENT_METHOD.invoke MethodName impl c args s = .returned r s1)
    ∧ (∀ e s1, callMember MethodName impl c args s = .threw e s1 →
        EXPOSE_CLIENT_METHOD.invoke MethodName impl c args s = .terminated)
    ∧ (∀ obj, s.deref c = some obj →
        (∃ r s1, EXPOSE_CLIENT_METHOD.invoke MethodName impl c args s = .returned r s1
          ∧ callMember MethodName impl c args s = .returned r s1)
        ∨ (EXPOSE_CLIENT_METHOD.invoke MethodName impl c args s = .terminated
          ∧ ∃ e s1, callMember MethodName impl c args s = .threw e s1)) := by
  refine ⟨?_, ?_, ?_, ?_, ?_⟩
  · intro d hd
    simp only [EXPOSE_CLIENT_METHOD, List.mem_singleton] at hd
    exact ⟨_, hd, rfl, rfl⟩
  · intro e s1
    rw [invoke_eq]
    exact noexceptBoundary_ne_threw _ e s1
  · intro r s1 h
    rw [invoke_eq, h]
    rfl
  · intro e s1 h
    rw [invoke_eq, h]
    rfl
  · intro obj hobj
    exact invoke_valid MethodName impl c args s obj hobj

/-- Witness of C9 on the example: `Heal` called without an argument throws, and its
forwarder ends the program. -/
theorem forwarder_never_delivers_exception_witness :
    callMember "Heal" exampleHeal 1 [] exampleState
      = .threw "Heal: bad call" ⟨exampleState.heap, [⟨1, "Heal", []⟩]⟩
    ∧ EXPOSE_CLIENT_METHOD.invoke "Heal" exampleHeal 1 [] exampleState = .terminated :=
  have h : callMember "Heal" exampleHeal 1 [] exampleState
      = .threw "Heal: bad call" ⟨exampleState.heap, [⟨1, "Heal", []⟩]⟩ := by decide
  ⟨h, (forwarder_never_delivers_exception (FClientType (CType.ofClass "AHero")) "Heal"
      exampleHeal 1 [] exampleState).2.2.2.1 _ _ h⟩

/-! ## What the expansions contain -/

/-- C6, counterexample.  `EXPOSE_CLIENT_METHOD(Heal)` does not expand to class and friend
declarations only, and the forwarder it declares takes run-time input and gives run-time
output: on the live object at address `1`, whose `Health` is `40`, `Heal(c, 5)` returns `45`,
`Heal(c, 6)` returns `46`, and the first call leaves `Health` at `45`. -/
theorem exposures_run_code_counterexample :
    (EXPOSE_CLIENT_METHOD (FClientType (CType.ofClass "AHero")) "Heal").all
        MemberDecl.isDeclarationOnly = false
    ∧ exampleState.field 1 "Health" = some 40
    ∧ EXPOSE_CLIENT_METHOD.invoke "Heal" exampleHeal 1 [⟨5, .rvalue⟩] exampleState
      = .returned (some 45)
          ⟨[(1, [("Health", 45), ("Mana", 7), ("bAlive", 1), ("Shared", 3)])],
            [⟨1, "Heal", [⟨5, .rvalue⟩]⟩]⟩
    ∧ EXPOSE_CLIENT_METHOD.invoke "Heal" exampleHeal 1 [⟨6, .rvalue⟩] exampleState
      = .returned (some 46)
          ⟨[(1, [("Health", 46), ("Mana", 7), ("bAlive", 1), ("Shared", 3)])],
            [⟨1, "Heal", [⟨6, .rvalue⟩]⟩]⟩ := by
  refine ⟨by decide, by decide, by decide, by decide⟩

/-- C6, amended.  `BEFRIEND_ATTORNEY`, `DECLARE_ATTORNEY_BEGIN`, `BEFRIEND_PARTY` and
`DECLARE_ATTORNEY_END` expand to class, alias and friend declarations only.
`EXPOSE_CLIENT_FIELD` and `EXPOSE_CLIENT_METHOD` each expand to one static member function,
which runs: the getter takes the client pointer and, when it returns, leaves the state as it
was; the forwarder takes the client pointer and the arguments and, when it returns, has
invoked the member once and leaves the state the body of the member leaves. -/
theorem declarations_and_generated_functions {V E : Type} (N P F M : Ident) (T : CType)
    (FClientType : ObjectType) (openClass : ClassDef) (field : FieldDecl)
    (impl : MethodImpl V E) (c : Address) (args : List (Argument V)) (s : State V) :
    (BEFRIEND_ATTORNEY N).all MemberDecl.isDeclarationOnly = true
    ∧ (DECLARE_ATTORNEY_BEGIN N T).members.all MemberDecl.isDeclarationOnly = true
    ∧ (BEFRIEND_PARTY P).all MemberDecl.isDeclarationOnly = true
    ∧ DECLARE_ATTORNEY_END openClass = openClass
    ∧ (∃ g, EXPOSE_CLIENT_FIELD FClientType F = [.staticFunction g])
    ∧ (∃ g, EXPOSE_CLIENT_METHOD FClientType M = [.staticFunction g])
    ∧ (∀ r s1, (EXPOSE_CLIENT_FIELD.Get field c s : Outcome (Reference V) V E)
        = .returned r s1 → s1 = s)
    ∧ (∀ r s1, EXPOSE_CLIENT_METHOD.invoke M impl c args s = .returned r s1 →
        callMember M impl c args s = .returned r s1
        ∧ s1 = ⟨impl.heapAfter c args s.heap, s.calls ++ [⟨c, M, args⟩]⟩) := by
  refine ⟨rfl, rfl, rfl, rfl, ⟨_, rfl⟩, ⟨_, rfl⟩, ?_, ?_⟩
  · intro r s1 h
    rcases getter_cases (E := E) field c s with hu | ⟨r2, hr⟩
    · rw [hu] at h; cases h
    · rw [hr] at h; cases h; rfl
  · intro r s1 h
    exact invoke_returned M impl c args s r s1 h

/-- Witness of C6 on the example: the forwarder of `void Reset()` returns nothing, as the
direct call does, and leaves `Health` at `0`. -/
theorem declarations_and_generated_functions_witness :
    EXPOSE_CLIENT_METHOD.invoke "Reset" exampleReset 1 [] exampleState
      = .returned none
          ⟨[(1, [("Health", 0), ("Mana", 7), ("bAlive", 1), ("Shared", 3)])],
            [⟨1, "Reset", []⟩]⟩
    ∧ callMember "Reset" exampleReset 1 [] exampleState
      = .returned none
          ⟨[(1, [("Health", 0), ("Mana", 7), ("bAlive", 1), ("Shared", 3)])],
            [⟨1, "Reset", []⟩]⟩ :=
  have h : EXPOSE_CLIENT_METHOD.invoke "Reset" exampleReset 1 [] exampleState
      = .returned none
          ⟨[(1, [("Health", 0), ("Mana", 7), ("bAlive", 1), ("Shared", 3)])],
            [⟨1, "Reset", []⟩]⟩ := by decide
  ⟨h, ((declarations_and_generated_functions "Hero" "UHud" "Health" "Reset"
      (CType.ofClass "AHero") (FClientType (CType.ofClass "AHero")) exampleAttorney
      exampleHealth exampleReset 1 [] exampleState).2.2.2.2.2.2.2 none _ h).1⟩

/-! ## Failures -/

/-- C7, counterexample.  Generated functions do fail at run time: the forwarder of the
throwing member `Fail` ends the program, and with a null client pointer the getter and the
forwarder have undefined behaviour.  And exposing a method that the client does not have is
not rejected as such: `Health` is a data member of `AHero`, not a method, yet the attorney
with `EXPOSE_CLIENT_METHOD(Health)` compiles, because the call in the forwarder template is
checked only where the forwarder is called. -/
theorem runtime_failure_counterexample :
    EXPOSE_CLIENT_METHOD.invoke "Fail" exampleFail 1 [] exampleState = .terminated
    ∧ (EXPOSE_CLIENT_FIELD.Get exampleHealth 0 exampleState :
        Outcome (Reference Int) Int String) = .undefined
    ∧ EXPOSE_CLIENT_METHOD.invoke "Heal" exampleHeal 0 [⟨5, .rvalue⟩] exampleState
      = .undefined
    ∧ exampleClient.findMember "Health" = some (.dataMember exampleHealth)
    ∧ compileAttorney (fun _ => false) exampleClient "Hero" (CType.ofClass "AHero")
        [.exposeMethod "Health"]
      = .ok (attorneyClass "Hero" (CType.ofClass "AHero") [.exposeMethod "Health"]) := by
  refine ⟨by decide, by decide, by decide, by decide, by rfl⟩

/-- C7, amended.  Exposing as a field a name that is not that of a data member of the client
(nor of a static member function that is not a template) is rejected where the attorney is
compiled, and so is exposing as a method a name that names no member of the client.
Exposing as a method a name that cannot be called on the client (not the name of a member
function, nor of a data member whose type can be called) is rejected where the forwarder is
called.  At run time no generated getter or forwarder delivers an
exception to its caller.  The getter either returns, with the state unchanged, or has
undefined behaviour, and it returns when the pointer points to a live client that holds the
field.  With a pointer to a live client the forwarder returns when the member returns and
ends the program when the member throws.  With a null pointer both have undefined
behaviour. -/
theorem exposure_failure_modes {V E : Type} (callable : CType → Bool) (client : ClassDef)
    (Name : Ident) (ClientType : CType) (items : List AttorneyItem) (field : FieldDecl)
    (MethodName : Ident) (impl : MethodImpl V E) (c : Address) (args : List (Argument V))
    (s : State V) :
    (∀ F, AttorneyItem.exposeField F ∈ items →
      (∀ d, client.findMember F = some d → d.usableAsValue = false) →
      ∃ e, compileAttorney callable client Name ClientType items = .error e)
    ∧ (∀ M, AttorneyItem.exposeMethod M ∈ items → client.findMember M = none →
      ∃ e, compileAttorney callable client Name ClientType items = .error e)
    ∧ (∀ M g, MemberDecl.staticFunction g ∈ EXPOSE_CLIENT_METHOD (FClientType ClientType) M →
        (∀ cv d, client.findMember M = some d → d.usableAsCall callable cv = false) →
        ∃ e, checkInstantiation callable client (attorneyClass Name ClientType items).name g
          = .error e)
    ∧ (∀ e s1, (EXPOSE_CLIENT_FIELD.Get field c s : Outcome (Reference V) V E) ≠ .threw e s1)
    ∧ (∀ e s1, EXPOSE_CLIENT_METHOD.invoke MethodName impl c args s ≠ .threw e s1)
    ∧ ((EXPOSE_CLIENT_FIELD.Get field c s : Outcome (Reference V) V E) = .undefined
        ∨ ∃ r, (EXPOSE_CLIENT_FIELD.Get field c s : Outcome (Reference V) V E)
            = .returned r s)
    ∧ (∀ v, s.field c field.name = some v →
        ∃ r, (EXPOSE_CLIENT_FIELD.Get field c s : Outcome (Reference V) V E)
            = .returned r s)
    ∧ (∀ obj, s.deref c = some obj →
        (∃ r s1, EXPOSE_CLIENT_METHOD.invoke MethodName impl c args s = .returned r s1
          ∧ callMember MethodName impl c args s = .returned r s1)
        ∨ (EXPOSE_CLIENT_METHOD.invoke MethodName impl c args s = .terminated
          ∧ ∃ e s1, callMember MethodName impl c args s = .threw e s1))
    ∧ (EXPOSE_CLIENT_FIELD.Get field 0 s : Outcome (Reference V) V E) = .undefined
    ∧ EXPOSE_CLIENT_METHOD.invoke MethodName impl 0 args s = .undefined := by
  refine ⟨?_, ?_, ?_, ?_, ?_, getter_cases field c s,
    fun v hv => getter_of_valid field c s v hv,
    fun obj hobj => invoke_valid MethodName impl c args s obj hobj, getter_null field s,
    invoke_null MethodName impl args s⟩
  · intro F hF hnone
    refine compileAttorney_error callable client Name ClientType items _
      ((attorneyClass_staticFunction_iff Name ClientType items _).mpr
        ⟨_, hF, List.mem_singleton.mpr rfl⟩) ?_
    exact firstError_of_mem _ _ (List.mem_cons_self _ _)
      (checkUse_value_error callable client _ _ F hnone)
  · intro M hM hnone
    refine compileAttorney_error callable client Name ClientType items _
      ((attorneyClass_staticFunction_iff Name ClientType items _).mpr
        ⟨_, hM, List.mem_singleton.mpr rfl⟩) ?_
    refine firstError_of_mem _ _ (List.mem_cons_self _ _) ?_
    obtain ⟨e, he⟩ := checkLookup_error client
      ⟨M, true, true, (CType.ofObject (FClientType ClientType)).addConst,
        [.call M, .call M, .call M, .call M]⟩ (.call M) hnone
    exact ⟨e, by simp only [MemberUse.isDependent, if_true, he]⟩
  · intro M g hg hcall
    simp only [EXPOSE_CLIENT_METHOD, List.mem_singleton, MemberDecl.staticFunction.injEq] at hg
    subst hg
    exact firstError_of_mem _ _ (List.mem_cons_self _ _)
      (checkUse_call_error callable client _ _ M hcall)
  · intro e s1
    exact noexceptBoundary_ne_threw _ e s1
  · intro e s1
    rw [invoke_eq]
    exact noexceptBoundary_ne_threw _ e s1

/-- Witness of C7 on the example.  `AHero` has no member `Stamina`: an attorney with
`EXPOSE_CLIENT_FIELD(Stamina)` is rejected, and so is one with
`EXPOSE_CLIENT_METHOD(Stamina)`.  `Health` is a data member that cannot be called: the
forwarder of `EXPOSE_CLIENT_METHOD(Health)` is rejected where it is called.  The attorney of
the example compiles. -/
theorem exposure_failure_modes_witness :
    exampleClient.findMember "Stamina" = none
    ∧ exampleClient.findMember "Health" = some (.dataMember exampleHealth)
    ∧ (∃ e, compileAttorney (fun _ => false) exampleClient "Hero" (CType.ofClass "AHero")
        [.exposeField "Stamina"] = .error e)
    ∧ (∃ e, compileAttorney (fun _ => false) exampleClient "Hero" (CType.ofClass "AHero")
        [.exposeMethod "Stamina"] = .error e)
    ∧ (∃ e, checkInstantiation (fun _ => false) exampleClient "FHeroAttorney"
        ⟨"Health", true, true, (CType.ofObject (FClientType (CType.ofClass "AHero"))).addConst,
          [.call "Health", .call "Health", .call "Health", .call "Health"]⟩ = .error e)
    ∧ compileAttorney (fun _ => false) exampleClient "Hero" (CType.ofClass "AHero")
        exampleItems = .ok exampleAttorney :=
  have h1 : exampleClient.findMember "Stamina" = none := by decide
  have h2 : exampleClient.findMember "Health" = some (.dataMember exampleHealth) := by decide
  ⟨h1, h2,
    (exposure_failure_modes (fun _ => false) exampleClient "Hero" (CType.ofClass "AHero")
      [.exposeField "Stamina"] exampleHealth "Heal" exampleHeal 1 [] exampleState).1
      "Stamina" (List.mem_singleton.mpr rfl) (fun d hd => by rw [h1] at hd; cases hd),
    (exposure_failure_modes (fun _ => false) exampleClient "Hero" (CType.ofClass "AHero")
      [.exposeMethod "Stamina"] exampleHealth "Heal" exampleHeal 1 [] exampleState).2.1
      "Stamina" (List.mem_singleton.mpr rfl) h1,
    (exposure_failure_modes (fun _ => false) exampleClient "Hero" (CType.ofClass "AHero")
      exampleItems exampleHealth "Heal" exampleHeal 1 [] exampleState).2.2.1
      "Health" _ (List.mem_singleton.mpr rfl)
      (fun cv d hd => by rw [h2] at hd; cases hd; rfl),
    by rfl⟩

/-! ## The client handle -/

/-- C8: for every client type `T` given to `DECLARE_ATTORNEY_BEGIN`, the alias `FClientType`
is a pointer to the decayed `T`; decaying removes the reference and the top-level `const` and
`volatile` and changes nothing else, and is idempotent.  `const T&` and `T` give the same
handle type and the same class head, which for a class `C` is `C*`.  The parameter
`const FClientType Client` of both generated functions is a constant pointer to a client that
is not constant.  So when `T` names the client class, with or without qualifiers and
reference, the forwarder of any member function the attorney may access, `const` or not,
passes the compiler both where it is defined and where it is called; and called with a
pointer to a live client, the forwarder of a member whose body changes the heap and completes
returns with the heap changed that way. -/
theorem client_handle_is_pointer_to_decayed {V E : Type} (N C F M : Ident) (T : CType)
    (impl : MethodImpl V E) (c : Address) (args : List (Argument V)) (s : State V) :
    MemberDecl.typeAlias "FClientType"
        (CType.ofObject (.pointer (TDecay T) CVQual.unqualified))
      ∈ (DECLARE_ATTORNEY_BEGIN N T).members
    ∧ FClientType T = .pointer (TDecay T) CVQual.unqualified
    ∧ (TDecay T).cv = CVQual.unqualified
    ∧ (TDecay T).withCV T.object.cv = T.object
    ∧ TDecay (CType.ofObject (TDecay T)) = TDecay T
    ∧ FClientType T.addConst.addLValueRef = FClientType T
    ∧ DECLARE_ATTORNEY_BEGIN N T.addConst.addLValueRef = DECLARE_ATTORNEY_BEGIN N T
    ∧ FClientType (CType.ofClass C).addConst.addLValueRef
        = .pointer (.named C CVQual.unqualified) CVQual.unqualified
    ∧ FClientType (CType.ofClass C) = .pointer (.named C CVQual.unqualified) CVQual.unqualified
    ∧ (∀ g, MemberDecl.staticFunction g ∈
          EXPOSE_CLIENT_FIELD (FClientType T) F ++ EXPOSE_CLIENT_METHOD (FClientType T) M →
        g.clientParam = ⟨.pointer (TDecay T) ⟨true, false⟩, .none⟩)
    ∧ (∀ (callable : CType → Bool) (client : ClassDef) (attorney : Ident) (cv : CVQual)
        (md : MethodDecl) (g : StaticFunctionDecl),
        T.object = .named client.name cv →
        client.findMember M = some (.memberFunction md) →
        client.canAccess attorney M = true →
        MemberDecl.staticFunction g ∈ EXPOSE_CLIENT_METHOD (FClientType T) M →
        checkDefinition callable client attorney g = .ok ()
        ∧ checkInstantiation callable client attorney g = .ok ())
    ∧ (∀ (f : Address → List (Argument V) → Heap V → Heap V) (obj : Object V),
        s.deref c = some obj →
        EXPOSE_CLIENT_METHOD.invoke M
            (MethodImpl.returnsVoid (E := E) fun this a h => (f this a h, none)) c args s
          = .returned none ⟨f c args s.heap, s.calls ++ [⟨c, M, args⟩]⟩)
    ∧ (∀ obj, s.deref c = some obj →
        (∃ r, EXPOSE_CLIENT_METHOD.invoke M impl c args s
          = .returned r ⟨impl.heapAfter c args s.heap, s.calls ++ [⟨c, M, args⟩]⟩)
        ∨ (EXPOSE_CLIENT_METHOD.invoke M impl c args s = .terminated
          ∧ ∃ e s1, callMember M impl c args s = .threw e s1)) := by
  have hdecay : ∀ U : CType, TDecay U.addConst.addLValueRef = TDecay U := by
    intro U
    obtain ⟨obj, ref⟩ := U
    cases ref <;> simp [TDecay, CType.addConst, CType.addLValueRef, withCV_withCV]
  have hhandle : FClientType T.addConst.addLValueRef = FClientType T := by
    simp only [FClientType, FDecayedClientType, hdecay]
  refine ⟨?_, rfl, cv_withCV _ _, ?_, ?_, hhandle, ?_, ?_, rfl, ?_, ?_, ?_, ?_⟩
  · simp [DECLARE_ATTORNEY_BEGIN, FClientType, FDecayedClientType]
  · simp only [TDecay, withCV_withCV, withCV_cv]
  · simp only [TDecay, CType.ofObject, withCV_withCV]
  · simp only [DECLARE_ATTORNEY_BEGIN, FClientType, FDecayedClientType, hdecay]
  · rfl
  · intro g hg
    simp only [EXPOSE_CLIENT_FIELD, EXPOSE_CLIENT_METHOD, List.singleton_append,
      List.mem_cons, MemberDecl.staticFunction.injEq, List.mem_singleton, List.not_mem_nil,
      or_false] at hg
    rcases hg with hg | hg <;> subst hg <;> rfl
  · intro callable client attorney cv md g hT hmethod hacc hg
    simp only [EXPOSE_CLIENT_METHOD, List.mem_singleton, MemberDecl.staticFunction.injEq] at hg
    subst hg
    have hq := clientQualifiers_generated client T cv hT
    have huse : checkUse callable client attorney
        ⟨M, true, true, (CType.ofObject (FClientType T)).addConst,
          [.call M, .call M, .call M, .call M]⟩ (.call M) = .ok () :=
      checkUse_call_ok callable client attorney _ M md hq hmethod hacc
    have hlook := checkLookup_method client
      ⟨M, true, true, (CType.ofObject (FClientType T)).addConst,
        [.call M, .call M, .call M, .call M]⟩ M md _ hq hmethod
    constructor
    · simp [checkDefinition, firstError, MemberUse.isDependent, hlook]
    · simp [checkInstantiation, firstError, huse]
  · intro f obj hobj
    rw [invoke_eq]
    simp [callMember, hobj, noexceptBoundary]
  · intro obj hobj
    rw [invoke_eq]
    rcases callMember_valid M impl c args s obj hobj with ⟨r, hr, _⟩ | ⟨e, he⟩
    · left; exact ⟨r, by rw [hr]; rfl⟩
    · right; exact ⟨by rw [he]; rfl, e, _, he⟩

/-- Witness of C8 on the example, with the client type written `const AHero&`: the forwarder
of the member `void Reset()`, which is not `const`, passes the compiler where it is called,
and `Reset(c)` on the live object at address `1` returns with `Health` set to `0`.  With the
client type written `AHero*` the handle is a pointer to a pointer, and the attorney is
rejected. -/
theorem client_handle_is_pointer_to_decayed_witness :
    exampleClient.findMember "Reset" = some (.memberFunction ⟨"Reset", false, true⟩)
    ∧ exampleClient.canAccess "FHeroAttorney" "Reset" = true
    ∧ checkInstantiation (fun _ => false) exampleClient "FHeroAttorney"
        ⟨"Reset", true, true,
          (CType.ofObject (FClientType (CType.ofClass "AHero").addConst.addLValueRef)).addConst,
          [.call "Reset", .call "Reset", .call "Reset", .call "Reset"]⟩ = .ok ()
    ∧ exampleState.field 1 "Health" = some 40
    ∧ EXPOSE_CLIENT_METHOD.invoke "Reset" exampleReset 1 [] exampleState
      = .returned none ⟨setField exampleState.heap 1 "Health" 0, [⟨1, "Reset", []⟩]⟩
    ∧ setField exampleState.heap 1 "Health" 0
      = [(1, [("Health", 0), ("Mana", 7), ("bAlive", 1), ("Shared", 3)])]
    ∧ compileAttorney (fun _ => false) exampleClient "Hero"
        (CType.ofObject (.pointer (.named "AHero" ⟨false, false⟩) ⟨false, false⟩))
        [.exposeMethod "Reset"]
      = .error (.notAClientPointer
          ⟨.pointer (.pointer (.named "AHero" ⟨false, false⟩) ⟨false, false⟩) ⟨true, false⟩,
            .none⟩) :=
  have h1 : exampleClient.findMember "Reset" = some (.memberFunction ⟨"Reset", false, true⟩) := by
    decide
  have h2 : exampleClient.canAccess "FHeroAttorney" "Reset" = true := by decide
  ⟨h1, h2,
    ((client_handle_is_pointer_to_decayed "Hero" "AHero" "Health" "Reset"
      (CType.ofClass "AHero").addConst.addLValueRef exampleReset 1 [] exampleState).2.2.2.2.2.2.2.2.2.2.1
      (fun _ => false) exampleClient "FHeroAttorney" ⟨true, false⟩ ⟨"Reset", false, true⟩ _
      rfl h1 h2 (List.mem_singleton.mpr rfl)).2,
    by decide,
    (client_handle_is_pointer_to_decayed (E := String) "Hero" "AHero" "Health" "Reset"
      (CType.ofClass "AHero").addConst.addLValueRef exampleReset 1 [] exampleState).2.2.2.2.2.2.2.2.2.2.2.1
      (fun this _ heap => setField heap this "Health" 0)
      [("Health", 40), ("Mana", 7), ("bAlive", 1), ("Shared", 3)] (by decide),
    by decide, by rfl⟩
end AttorneyPattern
